import Mathlib

/-!
# Verification of the dspy-proxy core (src/main.py)

A shallow embedding of the in-process registry/orchestration layer of
`src/main.py`: the signature store, module dispatch, the bootstrap
optimization loop, and the compiled-program store.  Python dicts become
association lists with dict-insert semantics, Python strings become `String`,
and the inference backend (an external collaborator per the spec) is an
explicit function parameter.  Parts implemented by the `dspy` library rather
than by this repository (the signature parser, the `exact_match` metric, the
bootstrap demonstration loop, the dummy backend's response shape) are
modelled from the spec, each marked in its doc comment.
-/

/-- Role tag of a signature field (spec section 3: each field is tagged
`input` or `output`). -/
inductive FieldType : Type
  | input : FieldType
  | output : FieldType
deriving DecidableEq, Repr

/-- One field of a signature: a name plus its role tag. -/
structure SigField : Type where
  name : String
  ftype : FieldType
deriving DecidableEq, Repr

/-- A registered signature: ordered tagged fields plus free-text
instructions (spec section 3; built by `dspy.make_signature` at
main.py line 91). -/
structure Signature : Type where
  fields : List SigField
  instructions : String
deriving DecidableEq, Repr

/-- A demonstration accepted by the optimizer: the training example
(a field-name-to-value dict) together with the teacher prediction's
attributes (which carry the generated rationale).  Spec section 4.4 step 3. -/
structure Demo : Type where
  ex : List (String × String)
  teacherAttrs : List (String × String)
deriving DecidableEq, Repr

/-- A compiled program: the source signature plus the selected
demonstrations, always of the reasoning-augmented strategy
(main.py line 175 always compiles a `dspy.ChainOfThought` student). -/
structure CompiledProgram : Type where
  sig : Signature
  demos : List Demo
deriving DecidableEq, Repr

/-- An executable module, as dispatched by `predict` (main.py lines 110-121):
a fresh `dspy.Predict`, a fresh `dspy.ChainOfThought`, or a previously
compiled program from the store. -/
inductive ProgModule : Type
  | direct : Signature → ProgModule
  | cot : Signature → ProgModule
  | compiled : CompiledProgram → ProgModule

/-- The inference backend (external collaborator, spec section 6): given a
module and structured inputs it returns the prediction's attribute dict, or
an error message on transport/provider failure. -/
abbrev Backend : Type := ProgModule → List (String × String) → Except String (List (String × String))

/-- The process-wide mutable state of main.py lines 17-18:
`signatures: Dict[str, Any]` and `compiled_modules: Dict[str, Any]`,
modelled as insertion-ordered association lists with dict semantics. -/
structure ProxyState : Type where
  signatures : List (String × Signature)
  compiled_modules : List (String × CompiledProgram)
deriving DecidableEq, Repr

/-- Python dict assignment `d[k] = v`: replace in place if the key exists,
otherwise append. -/
def dictInsert {α : Type} (k : String) (v : α) (d : List (String × α)) : List (String × α) :=
  if (d.lookup k).isSome then d.map (fun p => if p.1 == k then (k, v) else p)
  else d ++ [(k, v)]

/-- Error kinds of the core, one per raise site of main.py; names follow the
spec's section 7 taxonomy.  (`unknownModuleType` is the spec's
`UnsupportedStrategy`; `internalErr` is the uncaught IndexError a metric
request other than "exact_match" would hit at line 163 when the signature has
no output field.) -/
inductive ErrKind : Type
  | signatureNotFound : ErrKind
  | compiledProgramNotFound : ErrKind
  | unknownModuleType : ErrKind
  | backendInvocationErr : ErrKind
  | unsupportedOptimizer : ErrKind
  | invalidSignature : ErrKind
  | duplicateFieldName : ErrKind
  | internalErr : ErrKind
deriving DecidableEq, Repr

/-- Request body of `/predict` (main.py lines 32-36). -/
structure PredictRequest : Type where
  signature_name : String
  inputs : List (String × String)
  module_type : String
  compiled_module_id : Option String
deriving DecidableEq, Repr

/-- Request body of `/register` (main.py lines 20-23). -/
structure RegisterRequest : Type where
  name : String
  signature : String
  instructions : Option String
deriving DecidableEq, Repr

/-- Request body of `/optimize` (main.py lines 38-43). -/
structure OptimizeRequest : Type where
  signature_name : String
  train_data : List (List (String × String))
  metric : String
  optimizer : String
  max_bootstraps : Nat
deriving DecidableEq, Repr

/-- Python truthiness of `Optional[str]` as used at main.py line 110
(`if req.compiled_module_id:`): `None` and the empty string are falsy. -/
def optTruthy : Option String → Bool
  | none => false
  | some s => !(s = "")

/-- Building the response dict of `predict` (main.py lines 127-134): walk the
signature's fields in order copying the attributes the prediction has, then
copy the prediction's `rationale` attribute if present. -/
def buildOutput (sig : Signature) (attrs : List (String × String)) : List (String × String) :=
  let base := sig.fields.foldl
    (fun acc f =>
      match attrs.lookup f.name with
      | some v => dictInsert f.name v acc
      | none => acc) []
  match attrs.lookup "rationale" with
  | some r => dictInsert "rationale" r base
  | none => base

/-- The `/predict` operation (main.py lines 101-141).  The returned state is
the process state after the call; the code never writes to either store.
Errors raised inside the `try` block are re-raised by the handler at lines
138-141 as HTTP 500 with the original message; the kind recorded here is the
originating raise site. -/
def predict (st : ProxyState) (backend : Backend) (req : PredictRequest) :
    ProxyState × Except ErrKind (List (String × String)) :=
  match st.signatures.lookup req.signature_name with
  | none => (st, .error .signatureNotFound)
  | some sig =>
    let moduleE : Except ErrKind ProgModule :=
      if optTruthy req.compiled_module_id then
        match req.compiled_module_id with
        | some cid =>
          match st.compiled_modules.lookup cid with
          | none => .error .compiledProgramNotFound
          | some m => .ok (.compiled m)
        | none => .error .compiledProgramNotFound
      else
        if req.module_type = "Predict" then .ok (.direct sig)
        else if req.module_type = "ChainOfThought" then .ok (.cot sig)
        else .error .unknownModuleType
    match moduleE with
    | .error e => (st, .error e)
    | .ok m =>
      match backend m req.inputs with
      | .error _ => (st, .error .backendInvocationErr)
      | .ok attrs => (st, .ok (buildOutput sig attrs))

/-- The operations the FastAPI app of main.py exposes: one per `@app.post`
decorator — "/configure" (line 45), "/register" (line 87), "/predict"
(line 101), "/optimize" (line 143). -/
def appOperations : List String := ["configure", "register", "predict", "optimize"]

/-- The operations the client test `test_all` of src/example_client.py
exercises and asserts to succeed (lines 13, 34, 44, 62, 89). -/
def clientOperations : List String :=
  ["configure", "register", "predict", "optimize", "evaluate"]

/-- C1: the spec and the client test expect five operations including
`evaluate`, but the app of main.py registers only four routes and none of
them is `evaluate`; the client's `/evaluate` request (example_client.py
lines 89-96, asserting status 200) has no matching route. -/
theorem app_operations_no_evaluate :
    appOperations.length = 4 ∧ "evaluate" ∉ appOperations ∧
      "evaluate" ∈ clientOperations := by
  decide

/-- C10: `predict` is read-only on the process-wide state: whatever the
request, the backend outcome, or the failure branch taken, both the
signature store and the compiled-program store are exactly as before. -/
theorem predict_preserves_state (st : ProxyState) (backend : Backend)
    (req : PredictRequest) : (predict st backend req).1 = st := by
  unfold predict
  repeat' split <;> try rfl
  all_goals dsimp only
  all_goals split <;> rfl

/-- Witness for C10 at a concrete input. -/
theorem predict_preserves_state_witness :
    (predict ⟨[], []⟩ (fun _ _ => .ok []) ⟨"qa", [], "Predict", none⟩).1 =
      (⟨[], []⟩ : ProxyState) :=
  predict_preserves_state ⟨[], []⟩ (fun _ _ => .ok []) ⟨"qa", [], "Predict", none⟩

/-- C3 (amended): if the signature is registered and a non-empty
`compiled_module_id` is not a key of the compiled-program store, `predict`
fails with `CompiledProgramNotFound` exactly and leaves the state unchanged. -/
theorem predict_unknown_compiled (st : ProxyState) (backend : Backend)
    (req : PredictRequest) (cid : String) (sig : Signature)
    (hcid : req.compiled_module_id = some cid) (hne : cid ≠ "")
    (hsig : st.signatures.lookup req.signature_name = some sig)
    (hmiss : st.compiled_modules.lookup cid = none) :
    predict st backend req = (st, .error .compiledProgramNotFound) := by
  unfold predict
  rw [hsig, hcid]
  simp [optTruthy, hne, hmiss]

/-- Witness for C3's amended theorem at a concrete input. -/
theorem predict_unknown_compiled_witness :
    predict ⟨[("qa", ⟨[⟨"question", .input⟩, ⟨"answer", .output⟩], ""⟩)], []⟩
        (fun _ _ => .ok []) ⟨"qa", [("question", "x")], "Predict", some "qa_opt_0"⟩ =
      (⟨[("qa", ⟨[⟨"question", .input⟩, ⟨"answer", .output⟩], ""⟩)], []⟩,
        .error .compiledProgramNotFound) :=
  predict_unknown_compiled _ _ _ "qa_opt_0" ⟨[⟨"question", .input⟩, ⟨"answer", .output⟩], ""⟩
    rfl (by decide) rfl rfl

/-- C3 as stated is false: a predict call whose `compiled_module_id` is
unknown to the compiled-program store can fail with `SignatureNotFound`
instead, namely when the signature name is also unregistered — the code
checks the signature store first (main.py line 103). -/
theorem predict_unknown_compiled_cex :
    (ProxyState.compiled_modules ⟨[], []⟩).lookup "qa_opt_0" = none ∧
      (predict ⟨[], []⟩ (fun _ _ => .ok [])
          ⟨"qa", [("question", "x")], "Predict", some "qa_opt_0"⟩).2 =
        .error .signatureNotFound ∧
      ErrKind.signatureNotFound ≠ ErrKind.compiledProgramNotFound := by
  refine ⟨rfl, rfl, by decide⟩

/-- Characters the spec-modelled parser accepts inside a field name: anything
except the separator, arrow and space characters of the compact notation. -/
def isNameChar (c : Char) : Bool := !(c == ',' || c == '-' || c == '>' || c == ' ')

/-- Split a character list at every occurrence of `sep` (the separator is
dropped; `n` separators yield `n+1` parts). -/
def splitOnChar (sep : Char) : List Char → List (List Char)
  | [] => [[]]
  | c :: rest =>
    if c == sep then [] :: splitOnChar sep rest
    else
      match splitOnChar sep rest with
      | [] => [[c]]
      | p :: ps => (c :: p) :: ps

/-- Strip space characters from both ends of a character list. -/
def trimChars (l : List Char) : List Char :=
  ((l.dropWhile (· == ' ')).reverse.dropWhile (· == ' ')).reverse

/-- Failure modes of the signature parser: the spec's
`InvalidSignatureSyntax` (malformed arrow or field separators, empty field
lists) and `DuplicateFieldName` (a repeated field name). -/
inductive ParseErr : Type
  | malformed : ParseErr
  | duplicate : ParseErr
deriving DecidableEq, Repr

/-- One side of the arrow: split on commas, trim, and require every field
name to be non-empty and made of name characters (spec section 9: reject
ambiguous or empty field lists). -/
def parseSide (side : List Char) : Option (List (List Char)) :=
  let names := (splitOnChar ',' side).map trimChars
  if names.all (fun n => !n.isEmpty && n.all isNameChar) then some names else none

/-- Grammar `field_list -> field_list` (spec section 9): exactly one arrow,
written `-` followed by `>`, with a field list on each side. -/
def parseFieldSpec (l : List Char) : Option (List (List Char) × List (List Char)) :=
  match splitOnChar '-' l with
  | [lhs, rhs] =>
    match rhs with
    | '>' :: rhs' =>
      match parseSide lhs, parseSide rhs' with
      | some ins, some outs => some (ins, outs)
      | _, _ => none
    | _ => none
  | _ => none

/-- Modelled from the spec: `dspy.make_signature` (called at main.py line 91)
is library code not in this repository.  Spec section 4.1: parse the compact
notation `in1, in2 -> out1, out2` into ordered input/output field lists;
fail with `InvalidSignatureSyntax` if the arrow or field separators are
malformed, or `DuplicateFieldName` if a field name repeats (on either side
of the arrow or across the two sides). -/
def parseSignature (s instr : String) : Except ParseErr Signature :=
  match parseFieldSpec s.data with
  | none => .error .malformed
  | some (ins, outs) =>
    if (ins ++ outs).Nodup then
      .ok ⟨(ins.map fun n => ⟨⟨n⟩, .input⟩) ++ (outs.map fun n => ⟨⟨n⟩, .output⟩), instr⟩
    else .error .duplicate

/-- The `/register` operation (main.py lines 87-99): parse the field spec
into a signature class, store it under the requested name (replacing any
previous entry), and return the field names; any parse failure leaves the
store untouched (the assignment at line 92 is only reached on success). -/
def register (st : ProxyState) (req : RegisterRequest) :
    ProxyState × Except ErrKind (List String) :=
  match parseSignature req.signature (req.instructions.getD "") with
  | .error .malformed => (st, .error .invalidSignature)
  | .error .duplicate => (st, .error .duplicateFieldName)
  | .ok sig =>
    ({ st with signatures := dictInsert req.name sig st.signatures },
      .ok (sig.fields.map (·.name)))

/-- C7: a registration whose field-spec string repeats a field name — on the
same side of the arrow or across the two sides — fails with
`DuplicateFieldName`, and the signature store is untouched. -/
theorem register_duplicate_field (st : ProxyState) (req : RegisterRequest)
    (ins outs : List (List Char))
    (hp : parseFieldSpec req.signature.data = some (ins, outs))
    (hdup : ¬ (ins ++ outs).Nodup) :
    register st req = (st, .error .duplicateFieldName) := by
  unfold register parseSignature
  rw [hp]
  simp [hdup]

/-- Witness for C7: registering `"question, question -> answer"` fails with
`DuplicateFieldName` and leaves the empty state unchanged. -/
theorem register_duplicate_field_witness :
    register ⟨[], []⟩ ⟨"qa", "question, question -> answer", none⟩ =
      (⟨[], []⟩, .error .duplicateFieldName) :=
  register_duplicate_field ⟨[], []⟩ ⟨"qa", "question, question -> answer", none⟩
    ["question".data, "question".data] ["answer".data] (by decide) (by decide)

/-- A name character is none of the four punctuation characters of the
compact notation. -/
theorem isNameChar_spec (c : Char) (h : isNameChar c = true) :
    c ≠ ',' ∧ c ≠ '-' ∧ c ≠ '>' ∧ c ≠ ' ' := by
  simp only [isNameChar, Bool.not_eq_eq_eq_not, Bool.not_true, Bool.or_eq_false_iff,
    beq_eq_false_iff_ne] at h
  exact ⟨h.1.1.1, h.1.1.2, h.1.2, h.2⟩

/-- Splitting a list free of the separator yields that single part. -/
theorem splitOnChar_no_sep (sep : Char) : ∀ l : List Char, sep ∉ l → splitOnChar sep l = [l]
  | [], _ => rfl
  | c :: rest, h => by
    have hc : (c == sep) = false := by
      simp only [beq_eq_false_iff_ne]
      exact fun e => h (e ▸ List.mem_cons_self c rest)
    have ih := splitOnChar_no_sep sep rest (fun hm => h (List.mem_cons_of_mem _ hm))
    simp [splitOnChar, hc, ih]

/-- Splitting peels off a separator-free prefix as the first part. -/
theorem splitOnChar_append (sep : Char) : ∀ A B : List Char, sep ∉ A →
    splitOnChar sep (A ++ sep :: B) = A :: splitOnChar sep B
  | [], B, _ => by simp [splitOnChar]
  | c :: A', B, h => by
    have hc : (c == sep) = false := by
      simp only [beq_eq_false_iff_ne]
      exact fun e => h (e ▸ List.mem_cons_self c A')
    have ih := splitOnChar_append sep A' B (fun hm => h (List.mem_cons_of_mem _ hm))
    simp [splitOnChar, hc, ih]

/-- Dropping spaces skips an all-space prefix. -/
theorem dropWhile_spaces (l r : List Char) (h : ∀ c ∈ l, c = ' ') :
    (l ++ r).dropWhile (· == ' ') = r.dropWhile (· == ' ') := by
  induction l with
  | nil => rfl
  | cons c l' ih =>
    have hc : (c == ' ') = true := by simp [h c (List.mem_cons_self _ _)]
    simp only [List.cons_append, List.dropWhile_cons, hc, if_true]
    exact ih (fun d hd => h d (List.mem_cons_of_mem _ hd))

/-- Dropping spaces stops at a list whose head is a name character. -/
theorem dropWhile_name_head (n r : List Char) (hne : n ≠ [])
    (hn : ∀ c ∈ n, isNameChar c = true) :
    (n ++ r).dropWhile (· == ' ') = n ++ r := by
  cases n with
  | nil => exact absurd rfl hne
  | cons c n' =>
    have hc : c ≠ ' ' := (isNameChar_spec c (hn c (List.mem_cons_self _ _))).2.2.2
    simp [List.dropWhile_cons, hc]

/-- Trimming recovers a name padded by spaces on either side. -/
theorem trimChars_pad (pre n post : List Char)
    (hpre : ∀ c ∈ pre, c = ' ') (hpost : ∀ c ∈ post, c = ' ')
    (hne : n ≠ []) (hn : ∀ c ∈ n, isNameChar c = true) :
    trimChars (pre ++ n ++ post) = n := by
  unfold trimChars
  rw [List.append_assoc, dropWhile_spaces pre (n ++ post) hpre,
    dropWhile_name_head n post hne hn, List.reverse_append,
    dropWhile_spaces post.reverse n.reverse
      (fun c hc => hpost c (List.mem_reverse.mp hc))]
  have hrne : n.reverse ≠ [] := by simpa using hne
  cases hr : n.reverse with
  | nil => exact absurd hr hrne
  | cons c m =>
    have hcn : c ∈ n := List.mem_reverse.mp (by rw [hr]; exact List.mem_cons_self _ _)
    have hc : c ≠ ' ' := (isNameChar_spec c (hn c hcn)).2.2.2
    simp only [List.dropWhile_cons, beq_iff_eq, hc, if_false, if_neg hc]
    rw [← hr, List.reverse_reverse]

/-- A valid field name in the compact notation: non-empty and made of name
characters only. -/
def validName (n : List Char) : Prop := n ≠ [] ∧ ∀ c ∈ n, isNameChar c = true

instance validNameDec (n : List Char) : Decidable (validName n) :=
  inferInstanceAs (Decidable (n ≠ [] ∧ ∀ c ∈ n, isNameChar c = true))

/-- One side of the canonical compact notation: names joined by `", "`. -/
def renderSide : List (List Char) → List Char
  | [] => []
  | [n] => n
  | n :: rest => n ++ ',' :: ' ' :: renderSide rest

/-- Every character of a rendered side is a name character, a comma, or a
space. -/
theorem mem_renderSide : ∀ (ins : List (List Char)) (c : Char), c ∈ renderSide ins →
    (∃ n ∈ ins, c ∈ n) ∨ c = ',' ∨ c = ' '
  | [], c, h => by simp [renderSide] at h
  | [n], c, h => Or.inl ⟨n, List.mem_cons_self _ _, h⟩
  | n :: m :: rest, c, h => by
    simp only [renderSide, List.mem_append, List.mem_cons] at h
    rcases h with h | h | h | h
    · exact Or.inl ⟨n, List.mem_cons_self _ _, h⟩
    · exact Or.inr (Or.inl h)
    · exact Or.inr (Or.inr h)
    · rcases mem_renderSide (m :: rest) c h with ⟨n', hn', hc⟩ | h'
      · exact Or.inl ⟨n', List.mem_cons_of_mem _ hn', hc⟩
      · exact Or.inr h'

/-- The arrow character never occurs in a rendered side of valid names. -/
theorem dash_not_mem_renderSide (ins : List (List Char))
    (hv : ∀ n ∈ ins, validName n) : '-' ∉ renderSide ins := by
  intro h
  rcases mem_renderSide ins '-' h with ⟨n, hn, hin⟩ | h | h
  · exact (isNameChar_spec '-' ((hv n hn).2 '-' hin)).2.1 rfl
  · exact absurd h (by decide)
  · exact absurd h (by decide)

/-- The comma never occurs in a space-padded valid name. -/
theorem comma_not_mem_pad (pre n : List Char) (hpre : ∀ c ∈ pre, c = ' ')
    (hn : ∀ c ∈ n, isNameChar c = true) : ',' ∉ pre ++ n := by
  intro hm
  rcases List.mem_append.mp hm with hm | hm
  · exact absurd (hpre ',' hm) (by decide)
  · exact (isNameChar_spec ',' (hn ',' hm)).1 rfl

/-- Splitting a rendered side on commas and trimming recovers the name list,
whatever all-space padding surrounds it. -/
theorem splitTrim_render : ∀ (ins : List (List Char)) (pre post : List Char),
    ins ≠ [] → (∀ n ∈ ins, validName n) →
    (∀ c ∈ pre, c = ' ') → (∀ c ∈ post, c = ' ') →
    (splitOnChar ',' (pre ++ renderSide ins ++ post)).map trimChars = ins
  | [], _, _, h, _, _, _ => absurd rfl h
  | [n], pre, post, _, hv, hpre, hpost => by
    have hvn := hv n (List.mem_cons_self _ _)
    have hnc : ',' ∉ pre ++ renderSide [n] ++ post := by
      intro hm
      rcases List.mem_append.mp hm with hm | hm
      · exact comma_not_mem_pad pre (renderSide [n]) hpre hvn.2 hm
      · exact absurd (hpost ',' hm) (by decide)
    rw [splitOnChar_no_sep ',' _ hnc]
    simp only [List.map_cons, List.map_nil]
    rw [show renderSide [n] = n from rfl, trimChars_pad pre n post hpre hpost hvn.1 hvn.2]
  | n :: m :: rest, pre, post, _, hv, hpre, hpost => by
    have hvn := hv n (List.mem_cons_self _ _)
    have harr : pre ++ renderSide (n :: m :: rest) ++ post
        = (pre ++ n) ++ ',' :: ([' '] ++ renderSide (m :: rest) ++ post) := by
      show pre ++ (n ++ ',' :: ' ' :: renderSide (m :: rest)) ++ post = _
      simp [List.append_assoc]
    rw [harr, splitOnChar_append ',' _ _ (comma_not_mem_pad pre n hpre hvn.2)]
    have ih := splitTrim_render (m :: rest) [' '] post (by simp)
      (fun x hx => hv x (List.mem_cons_of_mem _ hx))
      (by intro c hc; simpa using hc) hpost
    simp only [List.map_cons, ih]
    have hh : trimChars (pre ++ n) = n := by
      have := trimChars_pad pre n [] hpre (by simp) hvn.1 hvn.2
      simpa using this
    rw [hh]

/-- Parsing one side of a canonically rendered field list succeeds and
returns exactly the names. -/
theorem parseSide_render (ins : List (List Char)) (pre post : List Char)
    (hne : ins ≠ []) (hv : ∀ n ∈ ins, validName n)
    (hpre : ∀ c ∈ pre, c = ' ') (hpost : ∀ c ∈ post, c = ' ') :
    parseSide (pre ++ renderSide ins ++ post) = some ins := by
  have hsplit := splitTrim_render ins pre post hne hv hpre hpost
  have hall : ins.all (fun n => !n.isEmpty && n.all isNameChar) = true := by
    rw [List.all_eq_true]
    intro n hn
    have hvn := hv n hn
    have h1 : n.isEmpty = false := by
      cases n with
      | nil => exact absurd rfl hvn.1
      | cons _ _ => rfl
    have h2 : n.all isNameChar = true := List.all_eq_true.mpr hvn.2
    simp [h1, h2]
  unfold parseSide
  simp only [hsplit, hall, if_true]

/-- The canonical spelling of the compact wire notation
`in1, in2 -> out1, out2` (spec sections 4.1 and 6) for given name lists. -/
def renderSpec (ins outs : List (List Char)) : String :=
  ⟨renderSide ins ++ ' ' :: '-' :: '>' :: ' ' :: renderSide outs⟩

/-- Parsing a canonically rendered field spec of valid names succeeds with
exactly those input and output name lists. -/
theorem parseFieldSpec_render (ins outs : List (List Char))
    (hne : ins ≠ []) (hne' : outs ≠ [])
    (hv : ∀ n ∈ ins, validName n) (hv' : ∀ n ∈ outs, validName n) :
    parseFieldSpec (renderSpec ins outs).data = some (ins, outs) := by
  have hdata : (renderSpec ins outs).data
      = (renderSide ins ++ [' ']) ++ '-' :: ('>' :: ' ' :: renderSide outs) := by
    show renderSide ins ++ ' ' :: '-' :: '>' :: ' ' :: renderSide outs = _
    simp [List.append_assoc]
  have hdashA : '-' ∉ renderSide ins ++ [' '] := by
    intro hm
    rcases List.mem_append.mp hm with hm | hm
    · exact dash_not_mem_renderSide ins hv hm
    · simp at hm
  have hdashB : '-' ∉ ('>' :: ' ' :: renderSide outs : List Char) := by
    intro hm
    rcases List.mem_cons.mp hm with hm | hm
    · exact absurd hm (by decide)
    · rcases List.mem_cons.mp hm with hm | hm
      · exact absurd hm (by decide)
      · exact dash_not_mem_renderSide outs hv' hm
  have h1 : parseSide (renderSide ins ++ [' ']) = some ins := by
    have := parseSide_render ins [] [' '] hne hv (by simp)
      (by intro c hc; simpa using hc)
    simpa using this
  have h2 : parseSide (' ' :: renderSide outs) = some outs := by
    have := parseSide_render outs [' '] [] hne' hv'
      (by intro c hc; simpa using hc) (by simp)
    simpa using this
  unfold parseFieldSpec
  rw [hdata, splitOnChar_append '-' _ _ hdashA, splitOnChar_no_sep '-' _ hdashB]
  simp only [h1, h2]

/-- Looking a key up after a replacing map over an association list that
contains it yields the new value. -/
theorem lookup_map_replace {α : Type} (k : String) (v : α) :
    ∀ d : List (String × α), (List.lookup k d).isSome = true →
      List.lookup k (d.map (fun p => if p.1 == k then (k, v) else p)) = some v
  | [], h => by simp [List.lookup] at h
  | (a, w) :: d', h => by
    by_cases hak : a = k
    · subst hak
      simp only [List.map_cons, beq_self_eq_true, if_true, List.lookup_cons_self]
    · have hak' : (a == k) = false := beq_eq_false_iff_ne.mpr hak
      have hka : (k == a) = false := beq_eq_false_iff_ne.mpr (Ne.symm hak)
      have h' : (List.lookup k d').isSome = true := by
        simpa [List.lookup_cons, hka] using h
      simp only [List.map_cons, hak', Bool.false_eq_true, if_false, List.lookup_cons, hka]
      exact lookup_map_replace k v d' h'

/-- Looking a key up after appending it to a list that lacks it yields the
appended value. -/
theorem lookup_append_fresh {α : Type} (k : String) (v : α) :
    ∀ d : List (String × α), List.lookup k d = none →
      List.lookup k (d ++ [(k, v)]) = some v
  | [], _ => by simp [List.lookup]
  | (a, w) :: d', h => by
    by_cases hak : a = k
    · subst hak
      simp [List.lookup] at h
    · have hka : (k == a) = false := beq_eq_false_iff_ne.mpr (Ne.symm hak)
      have h' : List.lookup k d' = none := by simpa [List.lookup, hka] using h
      simpa [List.lookup, hka] using lookup_append_fresh k v d' h'

/-- A dict insert makes the key map to the inserted value. -/
theorem lookup_dictInsert {α : Type} (k : String) (v : α) (d : List (String × α)) :
    (dictInsert k v d).lookup k = some v := by
  unfold dictInsert
  split
  case isTrue h => exact lookup_map_replace k v d h
  case isFalse h =>
    exact lookup_append_fresh k v d (by
      cases hl : List.lookup k d with
      | none => rfl
      | some w => rw [hl] at h; simp at h)

/-- C8: registering a valid field-spec string written in the compact
`in1, in2 -> out1, out2` notation and looking the name up returns a
signature whose field order and input/output tags exactly reproduce it,
and the response lists the field names in the same order. -/
theorem register_lookup_roundtrip (st : ProxyState) (name instr : String)
    (ins outs : List (List Char))
    (hne : ins ≠ []) (hne' : outs ≠ [])
    (hv : ∀ n ∈ ins, validName n) (hv' : ∀ n ∈ outs, validName n)
    (hnd : (ins ++ outs).Nodup) :
    ((register st ⟨name, renderSpec ins outs, some instr⟩).1).signatures.lookup name =
        some ⟨(ins.map fun n => ⟨⟨n⟩, .input⟩) ++ (outs.map fun n => ⟨⟨n⟩, .output⟩),
          instr⟩ ∧
      (register st ⟨name, renderSpec ins outs, some instr⟩).2 =
        .ok ((ins.map fun n => (⟨n⟩ : String)) ++ (outs.map fun n => (⟨n⟩ : String))) := by
  have hparse : parseSignature (renderSpec ins outs) instr =
      .ok ⟨(ins.map fun n => ⟨⟨n⟩, .input⟩) ++ (outs.map fun n => ⟨⟨n⟩, .output⟩), instr⟩ := by
    unfold parseSignature
    rw [parseFieldSpec_render ins outs hne hne' hv hv']
    simp [hnd]
  unfold register
  rw [show (some instr).getD "" = instr from rfl, hparse]
  refine ⟨lookup_dictInsert name _ _, ?_⟩
  simp [Function.comp_def]

/-- Witness for C8: registering `"question -> answer"` (the canonical render
of `["question"] -> ["answer"]`) and looking up `"qa"` reproduces the field
order and tags. -/
theorem register_lookup_roundtrip_witness :
    ((register ⟨[], []⟩ ⟨"qa", renderSpec ["question".data] ["answer".data],
        some "inst"⟩).1).signatures.lookup "qa" =
      some ⟨[⟨"question", .input⟩, ⟨"answer", .output⟩], "inst"⟩ := by
  have h := register_lookup_roundtrip ⟨[], []⟩ "qa" "inst"
    ["question".data] ["answer".data]
    (by decide) (by decide) (by decide) (by decide) (by decide)
  simpa using h.1

/-- Modelled from the spec: `answer_exact_match` (imported from
`dspy.evaluate` at main.py line 4, used by the metric closure at lines
157-159) is library code not in this repository.  Spec section 4.3: true iff
every output field's predicted value equals the reference's value under
exact (case-sensitive) string equality. -/
def exact_match (outputFields : List String)
    (ref pred : List (String × String)) : Bool :=
  outputFields.all fun k =>
    match ref.lookup k, pred.lookup k with
    | some a, some b => a == b
    | _, _ => false

/-- C2: the exact-match metric scores a prediction that agrees with the
reference on every output field positively, and scores a prediction whose
value at any single output field differs (even only in case) negatively. -/
theorem exact_match_spec (outs : List String)
    (ref pred pred' : List (String × String)) (k v v' : String)
    (hagree : ∀ f ∈ outs, (ref.lookup f).isSome = true ∧ pred.lookup f = ref.lookup f)
    (hk : k ∈ outs) (hv : ref.lookup k = some v) (hv' : pred'.lookup k = some v')
    (hne : v' ≠ v) :
    exact_match outs ref pred = true ∧ exact_match outs ref pred' = false := by
  constructor
  · rw [exact_match, List.all_eq_true]
    intro f hf
    obtain ⟨hs, he⟩ := hagree f hf
    obtain ⟨a, ha⟩ := Option.isSome_iff_exists.mp hs
    rw [ha] at he
    rw [ha, he]
    simp
  · rw [exact_match, Bool.eq_false_iff]
    intro hall
    rw [List.all_eq_true] at hall
    have hk' := hall k hk
    rw [hv, hv'] at hk'
    simp only [beq_iff_eq] at hk'
    exact hne hk'.symm

/-- Witness for C2: with output field `answer`, the reference
`{answer: "Paris"}` scores `{answer: "Paris"}` positively and the
case-changed `{answer: "paris"}` negatively. -/
theorem exact_match_spec_witness :
    exact_match ["answer"] [("answer", "Paris")] [("answer", "Paris")] = true ∧
      exact_match ["answer"] [("answer", "Paris")] [("answer", "paris")] = false :=
  exact_match_spec ["answer"] [("answer", "Paris")] [("answer", "Paris")]
    [("answer", "paris")] "answer" "Paris" "paris"
    (by decide) (by decide) (by decide) (by decide) (by decide)

/-- Whether a field is an input field (`__dspy_field_type == 'input'`,
main.py line 152). -/
def SigField.isInput (f : SigField) : Bool :=
  match f.ftype with
  | .input => true
  | .output => false

/-- The input field names of a signature, in declaration order
(main.py line 152). -/
def inputKeys (sig : Signature) : List String :=
  (sig.fields.filter (fun f => f.isInput)).map (fun f => f.name)

/-- The output field names of a signature, in declaration order
(main.py line 162). -/
def outputKeys (sig : Signature) : List String :=
  (sig.fields.filter (fun f => !f.isInput)).map (fun f => f.name)

/-- Modelled from the spec: `dspy.BootstrapFewShot.compile` (main.py lines
170-177) is library code not in this repository.  Spec section 4.4: iterate
the training set in input order, run the reasoning-augmented teacher on each
example, score the result against the example with the metric, accept the
example (augmented with the teacher's attributes) iff the score is positive,
and stop accepting once `max_demos` demonstrations are collected.  A
teacher/backend failure aborts the optimization (spec section 7: backend
invocation failures are surfaced verbatim, not retried). -/
def bootstrapDemos
    (teach : List (String × String) → Except String (List (String × String)))
    (metric : List (String × String) → List (String × String) → Bool) :
    List (List (String × String)) → Nat → Except String (List Demo)
  | [], _ => .ok []
  | e :: rest, n =>
    if n = 0 then .ok []
    else
      match teach e with
      | .error msg => .error msg
      | .ok attrs =>
        if metric e attrs then
          (bootstrapDemos teach metric rest (n - 1)).map (fun ds => ⟨e, attrs⟩ :: ds)
        else bootstrapDemos teach metric rest n

/-- The decimal rendering of a natural number, as Python `str` does inside
the f-string of main.py line 180. -/
def natToChars (n : Nat) : List Char :=
  if n = 0 then ['0'] else ((Nat.digits 10 n).map Nat.digitChar).reverse

/-- The id generated for a stored compiled program (main.py line 180):
`f"{req.signature_name}_opt_{len(compiled_modules)}"`. -/
def mkId (name : String) (count : Nat) : String :=
  name ++ "_opt_" ++ ⟨natToChars count⟩

/-- The metric closure built at main.py lines 157-165: `"exact_match"`
delegates to the exact-match metric over the signature's output fields; any
other metric name compares only the last output field (modelled as equality
of optional lookups since in-scope examples and predictions carry the
field); with no output field at all, `output_keys[-1]` at line 163 would
raise an uncaught IndexError, modelled as `internalErr`. -/
def metricFor (sig : Signature) (metricName : String) :
    Except ErrKind (List (String × String) → List (String × String) → Bool) :=
  if metricName = "exact_match" then
    .ok (fun e pred => exact_match (outputKeys sig) e pred)
  else
    match (outputKeys sig).getLast? with
    | none => .error .internalErr
    | some output_field =>
      .ok (fun e pred => e.lookup output_field == pred.lookup output_field)

/-- The fresh reasoning-augmented teacher built at main.py line 175
(`dspy.ChainOfThought(sig)`), run on each training example's designated
input fields (the `with_inputs` designation of line 154). -/
def teacherFor (backend : Backend) (sig : Signature) :
    List (String × String) → Except String (List (String × String)) :=
  fun e => backend (.cot sig) (e.filter (fun kv => (inputKeys sig).contains kv.1))

/-- The `/optimize` operation (main.py lines 143-188): look up the
signature, build the metric closure, require the `BootstrapFewShot`
optimizer (line 172, checked before any compile), run the (spec-modelled)
bootstrap loop with the fresh reasoning-augmented teacher over the training
set, and store the compiled program under the generated id (lines 180-181).
Every failure leaves the state unchanged; only success inserts. -/
def optimize (st : ProxyState) (backend : Backend) (req : OptimizeRequest) :
    ProxyState × Except ErrKind String :=
  match st.signatures.lookup req.signature_name with
  | none => (st, .error .signatureNotFound)
  | some sig =>
    match metricFor sig req.metric with
    | .error e => (st, .error e)
    | .ok metric_fn =>
      if req.optimizer = "BootstrapFewShot" then
        match bootstrapDemos (teacherFor backend sig) metric_fn
            req.train_data req.max_bootstraps with
        | .error _ => (st, .error .backendInvocationErr)
        | .ok demos =>
          let module_id := mkId req.signature_name st.compiled_modules.length
          ({ st with
              compiled_modules := dictInsert module_id ⟨sig, demos⟩ st.compiled_modules },
            .ok module_id)
      else (st, .error .unsupportedOptimizer)

/-- C6: an optimize request naming a registered signature but an optimizer
other than `"BootstrapFewShot"` fails with `UnsupportedOptimizer` exactly
(main.py line 172, reached before any compile or store insert) and leaves
the state unchanged.  The side condition on the metric/output fields only
rules out the unreachable no-output-field signature, which registration
cannot produce (spec section 3 invariant: at least one output field). -/
theorem optimize_unsupported (st : ProxyState) (backend : Backend)
    (req : OptimizeRequest) (sig : Signature)
    (hsig : st.signatures.lookup req.signature_name = some sig)
    (hout : req.metric = "exact_match" ∨ outputKeys sig ≠ [])
    (hopt : req.optimizer ≠ "BootstrapFewShot") :
    optimize st backend req = (st, .error .unsupportedOptimizer) := by
  unfold optimize
  rw [hsig]
  by_cases hm : req.metric = "exact_match"
  · simp [metricFor, hm, hopt]
  · have ho : outputKeys sig ≠ [] := (hout.resolve_left hm)
    obtain ⟨f, hf⟩ : ∃ f, (outputKeys sig).getLast? = some f := by
      cases hl : (outputKeys sig).getLast? with
      | none => exact absurd (List.getLast?_eq_none_iff.mp hl) ho
      | some f => exact ⟨f, rfl⟩
    simp [metricFor, hm, hf, hopt]

/-- Witness for C6: requesting optimizer `"MIPRO"` on a registered `qa`
signature fails with `UnsupportedOptimizer` and stores nothing. -/
theorem optimize_unsupported_witness :
    optimize ⟨[("qa", ⟨[⟨"question", .input⟩, ⟨"answer", .output⟩], ""⟩)], []⟩
        (fun _ _ => .ok []) ⟨"qa", [], "exact_match", "MIPRO", 4⟩ =
      (⟨[("qa", ⟨[⟨"question", .input⟩, ⟨"answer", .output⟩], ""⟩)], []⟩,
        .error .unsupportedOptimizer) :=
  optimize_unsupported _ _ _ ⟨[⟨"question", .input⟩, ⟨"answer", .output⟩], ""⟩
    rfl (Or.inl rfl) (by decide)

/-- The bootstrap loop never collects more demonstrations than its budget. -/
theorem bootstrapDemos_length_le
    (teach : List (String × String) → Except String (List (String × String)))
    (metric : List (String × String) → List (String × String) → Bool) :
    ∀ (l : List (List (String × String))) (n : Nat) (ds : List Demo),
      bootstrapDemos teach metric l n = .ok ds → ds.length ≤ n
  | [], n, ds, h => by
    rw [bootstrapDemos] at h
    injection h with h'
    subst h'
    simp
  | e :: rest, n, ds, h => by
    rw [bootstrapDemos] at h
    by_cases hn : n = 0
    · rw [if_pos hn] at h
      injection h with h'
      subst h'
      simp
    · rw [if_neg hn] at h
      cases ht : teach e with
      | error msg => rw [ht] at h; cases h
      | ok attrs =>
        rw [ht] at h
        dsimp only at h
        by_cases hm : metric e attrs
        · rw [if_pos hm] at h
          cases hrec : bootstrapDemos teach metric rest (n - 1) with
          | error msg => rw [hrec] at h; simp [Except.map] at h
          | ok ds' =>
            rw [hrec] at h
            simp only [Except.map] at h
            injection h with h'
            subst h'
            have := bootstrapDemos_length_le teach metric rest (n - 1) ds' hrec
            simp only [List.length_cons]
            omega
        · rw [if_neg hm] at h
          exact bootstrapDemos_length_le teach metric rest n ds h

/-- For a fixed training set, teacher and metric, the number of collected
demonstrations is monotone in the budget. -/
theorem bootstrapDemos_mono
    (teach : List (String × String) → Except String (List (String × String)))
    (metric : List (String × String) → List (String × String) → Bool) :
    ∀ (l : List (List (String × String))) (n n' : Nat), n ≤ n' →
      ∀ (ds ds' : List Demo), bootstrapDemos teach metric l n = .ok ds →
        bootstrapDemos teach metric l n' = .ok ds' → ds.length ≤ ds'.length
  | [], n, n', _, ds, ds', h, h' => by
    rw [bootstrapDemos] at h h'
    injection h with h1
    injection h' with h2
    subst h1
    subst h2
    exact Nat.le_refl _
  | e :: rest, n, n', hle, ds, ds', h, h' => by
    rw [bootstrapDemos] at h h'
    by_cases hn : n = 0
    · rw [if_pos hn] at h
      injection h with h1
      subst h1
      simp
    · have hn' : n' ≠ 0 := fun h0 => hn (Nat.le_zero.mp (h0 ▸ hle))
      rw [if_neg hn] at h
      rw [if_neg hn'] at h'
      cases ht : teach e with
      | error msg => rw [ht] at h; cases h
      | ok attrs =>
        rw [ht] at h h'
        dsimp only at h h'
        by_cases hm : metric e attrs
        · rw [if_pos hm] at h h'
          cases hrec : bootstrapDemos teach metric rest (n - 1) with
          | error msg => rw [hrec] at h; simp [Except.map] at h
          | ok d1 =>
            cases hrec' : bootstrapDemos teach metric rest (n' - 1) with
            | error msg => rw [hrec'] at h'; simp [Except.map] at h'
            | ok d2 =>
              rw [hrec] at h
              rw [hrec'] at h'
              simp only [Except.map] at h h'
              injection h with h1
              injection h' with h2
              subst h1
              subst h2
              have := bootstrapDemos_mono teach metric rest (n - 1) (n' - 1)
                (by omega) d1 d2 hrec hrec'
              simp only [List.length_cons]
              omega
        · rw [if_neg hm] at h h'
          exact bootstrapDemos_mono teach metric rest n n' hle ds ds' h h'

/-- With a total teacher the bootstrap loop always succeeds, whatever the
metric accepts — collecting fewer than the budget, or none at all, is not
an error. -/
theorem bootstrapDemos_total
    (teach : List (String × String) → Except String (List (String × String)))
    (metric : List (String × String) → List (String × String) → Bool)
    (hok : ∀ e, ∃ attrs, teach e = .ok attrs) :
    ∀ (l : List (List (String × String))) (n : Nat),
      ∃ ds, bootstrapDemos teach metric l n = .ok ds
  | [], n => ⟨[], by rw [bootstrapDemos]⟩
  | e :: rest, n => by
    rw [bootstrapDemos]
    by_cases hn : n = 0
    · exact ⟨[], by rw [if_pos hn]⟩
    · rw [if_neg hn]
      obtain ⟨attrs, ht⟩ := hok e
      rw [ht]
      dsimp only
      by_cases hm : metric e attrs
      · rw [if_pos hm]
        obtain ⟨ds, hds⟩ := bootstrapDemos_total teach metric hok rest (n - 1)
        exact ⟨⟨e, attrs⟩ :: ds, by rw [hds]; rfl⟩
      · rw [if_neg hm]
        exact bootstrapDemos_total teach metric hok rest n

/-- A successful optimize in the exact-match branch: the equation relating
the stored compiled program to the bootstrap loop's result. -/
theorem optimize_exact_match_eq (st : ProxyState) (backend : Backend)
    (req : OptimizeRequest) (sig : Signature) (ds : List Demo)
    (hsig : st.signatures.lookup req.signature_name = some sig)
    (hmet : req.metric = "exact_match")
    (hopt : req.optimizer = "BootstrapFewShot")
    (hds : bootstrapDemos (teacherFor backend sig)
        (fun e pred => exact_match (outputKeys sig) e pred)
        req.train_data req.max_bootstraps = .ok ds) :
    optimize st backend req =
      ({ st with
          compiled_modules :=
            dictInsert (mkId req.signature_name st.compiled_modules.length)
              (CompiledProgram.mk sig ds) st.compiled_modules },
        .ok (mkId req.signature_name st.compiled_modules.length)) := by
  have hmetric : metricFor sig req.metric =
      .ok (fun e pred => exact_match (outputKeys sig) e pred) := by
    unfold metricFor
    rw [if_pos hmet]
  unfold optimize
  rw [hsig]
  dsimp only
  rw [hmetric]
  dsimp only
  rw [if_pos hopt, hds]

/-- C4: with a registered signature, the exact-match metric, the
`BootstrapFewShot` optimizer, and a (deterministic) backend that answers the
teacher, optimize succeeds at any cap — reaching the cap is not required —
and the stored compiled program carries at most `max_bootstraps`
demonstrations, with a count monotonically non-decreasing in the cap for
the same training set and backend. -/
theorem optimize_demo_cap_mono (st : ProxyState) (backend : Backend)
    (req : OptimizeRequest) (sig : Signature) (m' : Nat)
    (hsig : st.signatures.lookup req.signature_name = some sig)
    (hmet : req.metric = "exact_match")
    (hopt : req.optimizer = "BootstrapFewShot")
    (hm : req.max_bootstraps ≤ m')
    (hbackend : ∀ inp, ∃ attrs, backend (.cot sig) inp = .ok attrs) :
    ∃ st1 id1 st2 id2 p1 p2,
      optimize st backend req = (st1, .ok id1) ∧
      optimize st backend { req with max_bootstraps := m' } = (st2, .ok id2) ∧
      st1.compiled_modules.lookup id1 = some p1 ∧
      st2.compiled_modules.lookup id2 = some p2 ∧
      p1.demos.length ≤ req.max_bootstraps ∧
      p1.demos.length ≤ p2.demos.length := by
  have hok : ∀ e, ∃ attrs, teacherFor backend sig e = .ok attrs :=
    fun e => hbackend _
  obtain ⟨ds1, hds1⟩ := bootstrapDemos_total (teacherFor backend sig)
    (fun e pred => exact_match (outputKeys sig) e pred) hok
    req.train_data req.max_bootstraps
  obtain ⟨ds2, hds2⟩ := bootstrapDemos_total (teacherFor backend sig)
    (fun e pred => exact_match (outputKeys sig) e pred) hok
    req.train_data m'
  have heq1 := optimize_exact_match_eq st backend req sig ds1 hsig hmet hopt hds1
  have heq2 := optimize_exact_match_eq st backend
    { req with max_bootstraps := m' } sig ds2 hsig hmet hopt hds2
  refine ⟨_, _, _, _, ⟨sig, ds1⟩, ⟨sig, ds2⟩, heq1, heq2, ?_, ?_, ?_, ?_⟩
  · exact lookup_dictInsert _ _ _
  · exact lookup_dictInsert _ _ _
  · exact bootstrapDemos_length_le _ _ _ _ _ hds1
  · exact bootstrapDemos_mono _ _ req.train_data req.max_bootstraps m' hm
      ds1 ds2 hds1 hds2

/-- Witness for C4: a `qa` signature, a dummy backend answering
`{reasoning: "because", answer: "42"}`, one training example whose answer is
`"42"`, and caps 1 ≤ 2. -/
theorem optimize_demo_cap_mono_witness :
    ∃ st1 id1 st2 id2 p1 p2,
      optimize ⟨[("qa", ⟨[⟨"question", .input⟩, ⟨"answer", .output⟩], ""⟩)], []⟩
          (fun _ _ => .ok [("reasoning", "because"), ("answer", "42")])
          ⟨"qa", [[("question", "What is 6 times 7?"), ("answer", "42")]],
            "exact_match", "BootstrapFewShot", 1⟩ = (st1, .ok id1) ∧
      optimize ⟨[("qa", ⟨[⟨"question", .input⟩, ⟨"answer", .output⟩], ""⟩)], []⟩
          (fun _ _ => .ok [("reasoning", "because"), ("answer", "42")])
          { (⟨"qa", [[("question", "What is 6 times 7?"), ("answer", "42")]],
              "exact_match", "BootstrapFewShot", 1⟩ : OptimizeRequest) with
            max_bootstraps := 2 } = (st2, .ok id2) ∧
      st1.compiled_modules.lookup id1 = some p1 ∧
      st2.compiled_modules.lookup id2 = some p2 ∧
      p1.demos.length ≤ 1 ∧
      p1.demos.length ≤ p2.demos.length :=
  optimize_demo_cap_mono
    ⟨[("qa", ⟨[⟨"question", .input⟩, ⟨"answer", .output⟩], ""⟩)], []⟩
    (fun _ _ => .ok [("reasoning", "because"), ("answer", "42")])
    ⟨"qa", [[("question", "What is 6 times 7?"), ("answer", "42")]],
      "exact_match", "BootstrapFewShot", 1⟩
    ⟨[⟨"question", .input⟩, ⟨"answer", .output⟩], ""⟩ 2
    rfl rfl rfl (by decide)
    (fun inp => ⟨[("reasoning", "because"), ("answer", "42")], rfl⟩)

/-- Decimal digit characters are pairwise distinct. -/
theorem digitChar_inj (a b : Nat) (ha : a < 10) (hb : b < 10)
    (h : Nat.digitChar a = Nat.digitChar b) : a = b := by
  interval_cases a <;> interval_cases b <;> revert h <;> decide

/-- No decimal digit character is an underscore. -/
theorem digitChar_ne_underscore (a : Nat) (ha : a < 10) :
    Nat.digitChar a ≠ '_' := by
  interval_cases a <;> decide

/-- The decimal rendering of a counter contains no underscore. -/
theorem natToChars_no_underscore (n : Nat) : ∀ c ∈ natToChars n, c ≠ '_' := by
  intro c hc
  unfold natToChars at hc
  split at hc
  · simp only [List.mem_singleton] at hc
    subst hc
    decide
  · rw [List.mem_reverse] at hc
    obtain ⟨d, hd, hdc⟩ := List.mem_map.mp hc
    exact hdc ▸ digitChar_ne_underscore d (Nat.digits_lt_base (by norm_num) hd)

/-- Mapping digit values below ten to their characters is injective. -/
theorem map_digitChar_inj : ∀ (l1 l2 : List Nat), (∀ x ∈ l1, x < 10) →
    (∀ x ∈ l2, x < 10) → l1.map Nat.digitChar = l2.map Nat.digitChar → l1 = l2
  | [], [], _, _, _ => rfl
  | [], _ :: _, _, _, h => by simp at h
  | _ :: _, [], _, _, h => by simp at h
  | a :: l1, b :: l2, h1, h2, h => by
    simp only [List.map_cons, List.cons.injEq] at h
    have ha := h1 a (List.mem_cons_self _ _)
    have hb := h2 b (List.mem_cons_self _ _)
    rw [digitChar_inj a b ha hb h.1,
      map_digitChar_inj l1 l2 (fun x hx => h1 x (List.mem_cons_of_mem _ hx))
        (fun x hx => h2 x (List.mem_cons_of_mem _ hx)) h.2]

/-- A nonzero number's decimal rendering is never `"0"`. -/
theorem natToChars_nonzero_ne (b : Nat) (hb : b ≠ 0)
    (h : ((Nat.digits 10 b).map Nat.digitChar).reverse = ['0']) : False := by
  have h' : (Nat.digits 10 b).map Nat.digitChar = ['0'] := by
    have := congrArg List.reverse h
    simpa using this
  have hd : Nat.digits 10 b = [0] := by
    cases hdb : Nat.digits 10 b with
    | nil => rw [hdb] at h'; simp at h'
    | cons d rest =>
      rw [hdb] at h'
      simp only [List.map_cons, List.cons.injEq] at h'
      have hrest : rest = [] := List.map_eq_nil_iff.mp h'.2
      have hd10 : d < 10 := Nat.digits_lt_base (by norm_num)
        (by rw [hdb]; exact List.mem_cons_self _ _)
      have hd0 : d = 0 := digitChar_inj d 0 hd10 (by norm_num) (by simpa using h'.1)
      rw [hrest, hd0]
  have hofd := Nat.ofDigits_digits 10 b
  rw [hd] at hofd
  simp [Nat.ofDigits] at hofd
  exact hb hofd.symm

/-- The decimal rendering of counters is injective. -/
theorem natToChars_inj (a b : Nat) (h : natToChars a = natToChars b) : a = b := by
  unfold natToChars at h
  by_cases ha : a = 0 <;> by_cases hb : b = 0
  · rw [ha, hb]
  · rw [if_pos ha, if_neg hb] at h
    exact absurd h.symm (fun hh => natToChars_nonzero_ne b hb hh)
  · rw [if_neg ha, if_pos hb] at h
    exact absurd h (fun hh => natToChars_nonzero_ne a ha hh)
  · rw [if_neg ha, if_neg hb] at h
    have h' := List.reverse_injective h
    have hd := map_digitChar_inj _ _
      (fun x hx => Nat.digits_lt_base (by norm_num) hx)
      (fun x hx => Nat.digits_lt_base (by norm_num) hx) h'
    have := congrArg (Nat.ofDigits 10) hd
    rw [Nat.ofDigits_digits, Nat.ofDigits_digits] at this
    exact_mod_cast this

/-- Cancelling around the rightmost underscore: if two lists free of
underscores are followed by an underscore and a tail, equal concatenations
force equal parts. -/
theorem underscore_append_cancel :
    ∀ (d1 d2 r1 r2 : List Char), (∀ c ∈ d1, c ≠ '_') → (∀ c ∈ d2, c ≠ '_') →
      d1 ++ '_' :: r1 = d2 ++ '_' :: r2 → d1 = d2 ∧ r1 = r2
  | [], [], r1, r2, _, _, h => ⟨rfl, by simpa using h⟩
  | [], c :: d2, r1, r2, _, h2, h => by
    simp only [List.nil_append, List.cons_append, List.cons.injEq] at h
    exact absurd h.1.symm (h2 c (List.mem_cons_self _ _))
  | c :: d1, [], r1, r2, h1, _, h => by
    simp only [List.nil_append, List.cons_append, List.cons.injEq] at h
    exact absurd h.1 (h1 c (List.mem_cons_self _ _))
  | c :: d1, c' :: d2, r1, r2, h1, h2, h => by
    simp only [List.cons_append, List.cons.injEq] at h
    obtain ⟨hd, hr⟩ := underscore_append_cancel d1 d2 r1 r2
      (fun x hx => h1 x (List.mem_cons_of_mem _ hx))
      (fun x hx => h2 x (List.mem_cons_of_mem _ hx)) h.2
    exact ⟨by rw [h.1, hd], hr⟩

/-- String append acts as list append on the character data. -/
theorem string_data_append (a b : String) : (a ++ b).data = a.data ++ b.data := rfl

/-- The generated compiled-program ids are injective in both the signature
name and the counter, even when names themselves contain `"_opt_"` or end
in digits: the decimal counter suffix contains no underscore, so the
rightmost underscore block is the generated one. -/
theorem mkId_inj (n1 n2 : String) (c1 c2 : Nat) (h : mkId n1 c1 = mkId n2 c2) :
    n1 = n2 ∧ c1 = c2 := by
  have hd : (n1.data ++ ['_', 'o', 'p', 't', '_']) ++ natToChars c1
      = (n2.data ++ ['_', 'o', 'p', 't', '_']) ++ natToChars c2 := by
    have := congrArg String.data h
    simpa [mkId, string_data_append] using this
  have hrev : (natToChars c1).reverse ++ '_' :: ('t' :: 'p' :: 'o' :: '_' :: n1.data.reverse)
      = (natToChars c2).reverse ++ '_' :: ('t' :: 'p' :: 'o' :: '_' :: n2.data.reverse) := by
    have := congrArg List.reverse hd
    simpa [List.reverse_append] using this
  obtain ⟨hdig, hrest⟩ := underscore_append_cancel _ _ _ _
    (fun c hc => natToChars_no_underscore c1 c (List.mem_reverse.mp hc))
    (fun c hc => natToChars_no_underscore c2 c (List.mem_reverse.mp hc)) hrev
  constructor
  · have hn : n1.data.reverse = n2.data.reverse := by
      simpa using hrest
    have hdata : n1.data = n2.data := List.reverse_injective hn
    cases n1
    cases n2
    exact congrArg String.mk hdata
  · exact natToChars_inj c1 c2 (List.reverse_injective hdig)

/-- Every optimize call either fails leaving the state unchanged, or
succeeds returning the generated id `"<name>_opt_<len>"` and inserting the
compiled program under it. -/
theorem optimize_cases (st : ProxyState) (backend : Backend) (req : OptimizeRequest) :
    (∃ e, optimize st backend req = (st, .error e)) ∨
    (∃ prog, optimize st backend req =
      ({ st with
          compiled_modules :=
            dictInsert (mkId req.signature_name st.compiled_modules.length) prog
              st.compiled_modules },
        .ok (mkId req.signature_name st.compiled_modules.length))) := by
  unfold optimize
  split
  · exact Or.inl ⟨_, rfl⟩
  · split
    · exact Or.inl ⟨_, rfl⟩
    · split
      · split
        · exact Or.inl ⟨_, rfl⟩
        · exact Or.inr ⟨_, rfl⟩
      · exact Or.inl ⟨_, rfl⟩

/-- Inserting an absent key appends it. -/
theorem dictInsert_fresh {α : Type} (k : String) (v : α) (d : List (String × α))
    (h : List.lookup k d = none) : dictInsert k v d = d ++ [(k, v)] := by
  unfold dictInsert
  rw [h]
  rfl

/-- A key that looks up successfully is among the stored keys. -/
theorem lookup_mem_keys {α : Type} (k : String) :
    ∀ d : List (String × α), (List.lookup k d).isSome = true → k ∈ d.map Prod.fst
  | [], h => by simp [List.lookup] at h
  | (a, w) :: d', h => by
    by_cases hk : k = a
    · subst hk
      exact List.mem_cons_self _ _
    · have hka : (k == a) = false := beq_eq_false_iff_ne.mpr hk
      have h' : (List.lookup k d').isSome = true := by
        simpa [List.lookup_cons, hka] using h
      exact List.mem_cons_of_mem _ (lookup_mem_keys k d' h')

/-- The invariant of the compiled-program store across a process lifetime:
every key is a generated id whose counter is below the store size. -/
def StoreOK (cms : List (String × CompiledProgram)) : Prop :=
  ∀ k ∈ cms.map Prod.fst, ∃ n c, k = mkId n c ∧ c < cms.length

/-- One process lifetime of optimize calls (main.py lines 143-188), threaded
over the compiled-program store; each call may see an arbitrary signature
store (signature registrations between calls never touch the
compiled-program store).  Returns the final store and the ids of successful
calls, in order. -/
def runOptimizes (backend : Backend) :
    List (String × CompiledProgram) →
    List (List (String × Signature) × OptimizeRequest) →
    List (String × CompiledProgram) × List String
  | cms, [] => (cms, [])
  | cms, (sigs, req) :: rest =>
    let res := optimize ⟨sigs, cms⟩ backend req
    let next := runOptimizes backend res.1.compiled_modules rest
    match res.2 with
    | .ok id => (next.1, id :: next.2)
    | .error _ => (next.1, next.2)

/-- The master invariant of a run: the store invariant is preserved, the
store grows by exactly one entry per generated id, the ids are pairwise
distinct with counters at least the starting store size, and both old keys
and all generated ids remain present at the end. -/
theorem runOptimizes_spec (backend : Backend) :
    ∀ (calls : List (List (String × Signature) × OptimizeRequest))
      (cms : List (String × CompiledProgram)), StoreOK cms →
      StoreOK (runOptimizes backend cms calls).1 ∧
      (runOptimizes backend cms calls).1.length
        = cms.length + (runOptimizes backend cms calls).2.length ∧
      (runOptimizes backend cms calls).2.Nodup ∧
      (∀ id ∈ (runOptimizes backend cms calls).2,
        ∃ n c, id = mkId n c ∧ cms.length ≤ c) ∧
      (∀ k, (List.lookup k cms).isSome = true →
        (List.lookup k (runOptimizes backend cms calls).1).isSome = true) ∧
      (∀ id ∈ (runOptimizes backend cms calls).2,
        (List.lookup id (runOptimizes backend cms calls).1).isSome = true)
  | [], cms, hok => by
    refine ⟨hok, by simp [runOptimizes], by simp [runOptimizes], ?_, ?_, ?_⟩
    · intro id hid
      simp [runOptimizes] at hid
    · intro k hk
      simpa [runOptimizes] using hk
    · intro id hid
      simp [runOptimizes] at hid
  | (sigs, req) :: rest, cms, hok => by
    rcases optimize_cases ⟨sigs, cms⟩ backend req with ⟨e, heq⟩ | ⟨prog, heq⟩
    · have hstep : runOptimizes backend cms ((sigs, req) :: rest)
          = runOptimizes backend cms rest := by
        simp only [runOptimizes, heq]
      rw [hstep]
      exact runOptimizes_spec backend rest cms hok
    · have hfresh : List.lookup (mkId req.signature_name cms.length) cms = none := by
        cases hl : List.lookup (mkId req.signature_name cms.length) cms with
        | none => rfl
        | some w =>
          obtain ⟨n, c, hkc, hclt⟩ := hok _ (lookup_mem_keys _ cms (by rw [hl]; rfl))
          obtain ⟨-, hcc⟩ := mkId_inj _ _ _ _ hkc
          omega
      have hins : dictInsert (mkId req.signature_name cms.length) prog cms
          = cms ++ [(mkId req.signature_name cms.length, prog)] :=
        dictInsert_fresh _ _ _ hfresh
      have hok' : StoreOK (cms ++ [(mkId req.signature_name cms.length, prog)]) := by
        intro k hk
        simp only [List.map_append, List.map_cons, List.map_nil, List.mem_append,
          List.mem_singleton] at hk
        rcases hk with hk | hk
        · obtain ⟨n, c, hkc, hclt⟩ := hok k hk
          exact ⟨n, c, hkc, by simp; omega⟩
        · exact ⟨req.signature_name, cms.length, hk, by simp⟩
      have hstep : runOptimizes backend cms ((sigs, req) :: rest)
          = ((runOptimizes backend
                (cms ++ [(mkId req.signature_name cms.length, prog)]) rest).1,
             mkId req.signature_name cms.length ::
               (runOptimizes backend
                 (cms ++ [(mkId req.signature_name cms.length, prog)]) rest).2) := by
        simp only [runOptimizes, heq, hins]
      obtain ⟨ih1, ih2, ih3, ih4, ih5, ih6⟩ := runOptimizes_spec backend rest
        (cms ++ [(mkId req.signature_name cms.length, prog)]) hok'
      rw [hstep]
      refine ⟨ih1, ?_, ?_, ?_, ?_, ?_⟩
      · simp only [List.length_cons]
        rw [ih2]
        simp
        omega
      · refine List.Nodup.cons ?_ ih3
        intro hmem
        obtain ⟨n, c, hkc, hcge⟩ := ih4 _ hmem
        obtain ⟨-, hcc⟩ := mkId_inj _ _ _ _ hkc
        simp at hcge
        omega
      · intro id hid
        rcases List.mem_cons.mp hid with hid | hid
        · exact ⟨req.signature_name, cms.length, hid, Nat.le_refl _⟩
        · obtain ⟨n, c, hkc, hcge⟩ := ih4 id hid
          refine ⟨n, c, hkc, ?_⟩
          simp at hcge
          omega
      · intro k hk
        refine ih5 k ?_
        rw [List.lookup_append]
        cases hl : List.lookup k cms with
        | none => rw [hl] at hk; simp at hk
        | some w => simp [Option.or]
      · intro id hid
        rcases List.mem_cons.mp hid with hid | hid
        · subst hid
          refine ih5 _ ?_
          rw [List.lookup_append, hfresh]
          simp [List.lookup_cons, Option.or]
        · exact ih6 id hid

/-- C5: across any sequence of optimize calls within one process — starting
from the empty compiled-program store, with arbitrary signature stores and
requests (including signature names containing `"_opt_"`) — the generated
ids are pairwise distinct, each successful call adds exactly one new store
entry without overwriting, and every generated id is still present at the
end. -/
theorem optimize_ids_unique (backend : Backend)
    (calls : List (List (String × Signature) × OptimizeRequest)) :
    (runOptimizes backend [] calls).2.Nodup ∧
      (runOptimizes backend [] calls).1.length
        = (runOptimizes backend [] calls).2.length ∧
      ∀ id ∈ (runOptimizes backend [] calls).2,
        (List.lookup id (runOptimizes backend [] calls).1).isSome = true := by
  obtain ⟨-, hlen, hnd, -, -, hmem⟩ := runOptimizes_spec backend calls []
    (by intro k hk; simp at hk)
  exact ⟨hnd, by simpa using hlen, hmem⟩

/-- Witness for C5: two optimize calls on the same signature name from a
fresh process generate distinct ids, both stored. -/
theorem optimize_ids_unique_witness :
    (runOptimizes (fun _ _ => .ok [("answer", "42")]) []
        [([("qa", ⟨[⟨"question", .input⟩, ⟨"answer", .output⟩], ""⟩)],
           ⟨"qa", [], "exact_match", "BootstrapFewShot", 2⟩),
         ([("qa", ⟨[⟨"question", .input⟩, ⟨"answer", .output⟩], ""⟩)],
           ⟨"qa", [], "exact_match", "BootstrapFewShot", 2⟩)]).2.Nodup ∧
      (runOptimizes (fun _ _ => .ok [("answer", "42")]) []
        [([("qa", ⟨[⟨"question", .input⟩, ⟨"answer", .output⟩], ""⟩)],
           ⟨"qa", [], "exact_match", "BootstrapFewShot", 2⟩),
         ([("qa", ⟨[⟨"question", .input⟩, ⟨"answer", .output⟩], ""⟩)],
           ⟨"qa", [], "exact_match", "BootstrapFewShot", 2⟩)]).1.length
        = (runOptimizes (fun _ _ => .ok [("answer", "42")]) []
        [([("qa", ⟨[⟨"question", .input⟩, ⟨"answer", .output⟩], ""⟩)],
           ⟨"qa", [], "exact_match", "BootstrapFewShot", 2⟩),
         ([("qa", ⟨[⟨"question", .input⟩, ⟨"answer", .output⟩], ""⟩)],
           ⟨"qa", [], "exact_match", "BootstrapFewShot", 2⟩)]).2.length ∧
      ∀ id ∈ (runOptimizes (fun _ _ => .ok [("answer", "42")]) []
        [([("qa", ⟨[⟨"question", .input⟩, ⟨"answer", .output⟩], ""⟩)],
           ⟨"qa", [], "exact_match", "BootstrapFewShot", 2⟩),
         ([("qa", ⟨[⟨"question", .input⟩, ⟨"answer", .output⟩], ""⟩)],
           ⟨"qa", [], "exact_match", "BootstrapFewShot", 2⟩)]).2,
        (List.lookup id (runOptimizes (fun _ _ => .ok [("answer", "42")]) []
        [([("qa", ⟨[⟨"question", .input⟩, ⟨"answer", .output⟩], ""⟩)],
           ⟨"qa", [], "exact_match", "BootstrapFewShot", 2⟩),
         ([("qa", ⟨[⟨"question", .input⟩, ⟨"answer", .output⟩], ""⟩)],
           ⟨"qa", [], "exact_match", "BootstrapFewShot", 2⟩)]).1).isSome = true :=
  optimize_ids_unique (fun _ _ => .ok [("answer", "42")])
    [([("qa", ⟨[⟨"question", .input⟩, ⟨"answer", .output⟩], ""⟩)],
       ⟨"qa", [], "exact_match", "BootstrapFewShot", 2⟩),
     ([("qa", ⟨[⟨"question", .input⟩, ⟨"answer", .output⟩], ""⟩)],
       ⟨"qa", [], "exact_match", "BootstrapFewShot", 2⟩)]

/-- Modelled from the spec and main.py lines 47-53: the backend configured
by `/configure` with provider `"dummy"` wraps
`DummyLM([{"answer": "42", "reasoning": "because"}] * 1000)`.  As the
code's own comment at line 49 notes ("ChainOfThought expects 'reasoning'
field usually"), a reasoning-augmented prediction carries its generated
rationale under the attribute named `reasoning`; a direct prediction has
only the signature's output field. -/
def dummyBackend : Backend
  | .direct _, _ => .ok [("answer", "42")]
  | .cot _, _ => .ok [("reasoning", "because"), ("answer", "42")]
  | .compiled _, _ => .ok [("reasoning", "because"), ("answer", "42")]

/-- The state after registering the client's `qa` signature
(example_client.py lines 34-38). -/
def regState : ProxyState :=
  (register ⟨[], []⟩ ⟨"qa", "question -> answer",
    some "Answer the question concisely and accurately."⟩).1

/-- C9: a reasoning-augmented predict on the registered `qa` signature with
the dummy backend succeeds, but the result is `{answer: "42"}` with no
rationale under any key: main.py line 133 copies the attribute named
`rationale`, while the backend surfaces the rationale under `reasoning`
(per the code's own comment at line 49 and the DummyLM configuration at
line 51), so the claimed surfacing never happens. -/
theorem predict_cot_no_rationale :
    (predict regState dummyBackend
        ⟨"qa", [("question", "What is the capital of France?")],
          "ChainOfThought", none⟩).2 = .ok [("answer", "42")] ∧
      List.lookup "rationale" [(("answer" : String), ("42" : String))] = none ∧
      List.lookup "reasoning" [(("answer" : String), ("42" : String))] = none := by
  refine ⟨?_, by decide, by decide⟩
  rfl
